import Mathlib

/-!
Shallow embedding of the AliceVision calibration core
(`src/software/pipeline/main_intrinsicsCalibration.cpp`, the `Histogram`
utility header and the SfM bootstraping pipeline file) in Lean 4, together
with theorems settling the specification claims C1-C10.

Machine doubles are modelled by `ℚ` wherever the code only performs exact
field arithmetic and comparisons; for the closed-form Zhang intrinsic
extraction, where IEEE non-finite values are the whole point, doubles are
modelled by `DReal` (a rational tagged with a NaN state, all IEEE
non-finite values collapsed into `nan`).  `std::map` is modelled by an
association list with the usual `operator[]` read/write helpers.
-/

namespace AV

/-! ## Association-list model of `std::map<IndexT, T>` -/

/-- Lookup in a `std::map`: `m.find(k)`, as an `Option`. -/
def alookup {α : Type _} (l : List (ℕ × α)) (k : ℕ) : Option α :=
  (l.find? (fun p => p.1 == k)).map Prod.snd

/-- Write through `std::map::operator[]`: replace the value under `k` if the
key is present, otherwise append the new binding. -/
def aset {α : Type _} (l : List (ℕ × α)) (k : ℕ) (v : α) : List (ℕ × α) :=
  match l with
  | [] => [(k, v)]
  | (k', v') :: t => if k' = k then (k, v) :: t else (k', v') :: aset t k v

/-- Read through `std::map::operator[]` with default construction: the value
under `k` when present, a default-constructed value otherwise. -/
def agetD {α : Type _} (l : List (ℕ × α)) (k : ℕ) (d : α) : α :=
  (alookup l k).getD d

/-! ## Histogram (`aliceVision::utils::Histogram<double>`, `src/unnamed/part_000`) -/

/-- State of a `Histogram<double>`: the `double` members `Start`, `End`,
`nBins_by_interval` are modelled by `ℚ`, the `size_t` members by `ℕ`, and
the `std::vector<size_t> freq` by a list. -/
structure Histogram where
  Start : ℚ
  End : ℚ
  nBins_by_interval : ℚ
  nBins : ℕ
  freq : List ℕ
  overflow : ℕ
  underflow : ℕ
  deriving DecidableEq

/-- Constructor `Histogram(Start, End, nBins)`: stores
`nBins_by_interval = nBins / (End - Start)` and zero-initializes `nBins`
bins (`freq.resize(nBins, 0)`). -/
def mkHistogram (s e : ℚ) (nBins : ℕ) : Histogram :=
  { Start := s
    End := e
    nBins_by_interval := (nBins : ℚ) / (e - s)
    nBins := nBins
    freq := List.replicate nBins 0
    overflow := 0
    underflow := 0 }

/-- Increment the vector element at index `i` (`++freq[i]`; out-of-range
indices leave the vector unchanged, which never happens under the
histogram's invariant). -/
def incrAt : List ℕ → ℕ → List ℕ
  | [], _ => []
  | a :: t, 0 => (a + 1) :: t
  | a :: t, n + 1 => a :: incrAt t n

/-- Member `Histogram::Add(x)`: underflow when `x < Start`, overflow when
`x > End`, otherwise increment `freq[min(size_t((x - Start) * nBins_by_interval), nBins - 1)]`.
The `static_cast<size_t>` of the (here non-negative) double is truncation,
i.e. the floor. -/
def histAdd (h : Histogram) (x : ℚ) : Histogram :=
  if x < h.Start then { h with underflow := h.underflow + 1 }
  else if x > h.End then { h with overflow := h.overflow + 1 }
  else
    let i : ℕ := ((x - h.Start) * h.nBins_by_interval).floor.toNat
    { h with freq := incrAt h.freq (min i (h.nBins - 1)) }

/-! ## Pair-angle estimation (`estimatePairAngle`, `src/unnamed/part_001`)

The geometry applied to each common track (the fundamental-matrix epipolar
distance, the DLT triangulation depth and the triangulated ray angle) is
computed by external linear-algebra routines; the embedding takes these
three per-track quantities as oracle functions and models the loop, the
two filters, the median index and the final `angles[medianIndex]` read.
An out-of-bounds vector read is modelled as `none`. -/

/-- One common track of the two views, with its identifier. -/
structure PairTrack where
  trackId : ℕ
  deriving DecidableEq

/-- Camera model tag for the `dynamic_pointer_cast<camera::Pinhole>` checks:
either a pinhole camera or some other camera type. -/
inductive CamKind where
  | pinholeCam
  | otherCam
  deriving DecidableEq

/-- Function `estimatePairAngle`: returns the `bool` result together with the
median-angle read (`none` models the out-of-bounds `angles[medianIndex]`
access on an empty vector, in which case `resultAngle` is not well-defined)
and the `usedTracks` output vector.  `dist t` is the signed epipolar
distance of track `t`, `triZ t` the depth `X(2)` of its DLT triangulation,
`angleOf t` the ray angle; `std::nth_element` is modelled by fully sorting
the angle vector, which realizes its postcondition at `medianIndex`. -/
def estimatePairAngle (refKind nextKind : CamKind)
    (dist triZ angleOf : PairTrack → ℚ) (maxDistance : ℚ)
    (tracks : List PairTrack) : Bool × Option ℚ × List ℕ :=
  if refKind = CamKind.otherCam ∨ nextKind = CamKind.otherCam then
    (false, none, [])
  else
    let kept := tracks.filter (fun t => !(dist t > maxDistance) && !(triZ t < 0))
    let angles := kept.map angleOf
    let usedTracks := kept.map PairTrack.trackId
    let medianIndex := angles.length / 2
    let sorted := angles.mergeSort (fun a b => decide (a ≤ b))
    (true, sorted[medianIndex]?, usedTracks)

/-! ## Data model shared by the calibration pipelines
(`src/software/pipeline/main_intrinsicsCalibration.cpp`) -/

/-- A 2D point (`Vec2` / `Eigen::Vector2d`). -/
abbrev Pix := ℚ × ℚ

/-- A detected corner (`CheckerDetector::CheckerBoardCorner`): its 2D center. -/
structure CheckerBoardCorner where
  center : Pix
  deriving DecidableEq

/-- A detected checkerboard (`CheckerDetector::CheckerBoard`): a grid of
corner identifiers, row-major; a cell holding `UndefinedIndexT` is modelled
as `none`. -/
abbrev CheckerBoard := List (List (Option ℕ))

/-- One per-image detection result (`calibration::CheckerDetector`). -/
structure CheckerDetector where
  boards : List CheckerBoard
  corners : List CheckerBoardCorner
  deriving DecidableEq

/-- Number of rows of the board (`board.rows()`). -/
def boardRows (b : CheckerBoard) : ℕ := b.length

/-- Number of columns of the board (`board.cols()`; the grid is an Eigen
matrix, so every row has this length). -/
def boardCols (b : CheckerBoard) : ℕ := (b.headD []).length

/-- The defined cells of a board in row-major order, as `(i, j, cid)`;
cells holding `UndefinedIndexT` are skipped (`continue`). -/
def boardCells (b : CheckerBoard) : List (ℕ × ℕ × ℕ) :=
  (b.enum.map (fun r =>
    r.2.enum.filterMap (fun c => c.2.map (fun cid => (r.1, c.1, cid))))).flatten

/-- Count of defined corner cells of a board (`count_points` loop). -/
def countPoints (b : CheckerBoard) : ℕ := (boardCells b).length

/-- A view (`sfmData::View`): its identifier, pose, intrinsic and image size. -/
structure View where
  viewId : ℕ
  poseId : ℕ
  intrinsicId : ℕ
  width : ℕ
  height : ℕ
  deriving DecidableEq

/-- An observation (`sfmData::Observation(x, idFeature, scale)`). -/
structure Observation where
  x : Pix
  idFeature : ℕ
  scale : ℚ
  deriving DecidableEq

/-- A landmark (`sfmData::Landmark`): a 3D point in the pattern frame and
its observations indexed by view identifier. -/
structure Landmark where
  X : ℚ × ℚ × ℚ
  observations : List (ℕ × Observation)
  deriving DecidableEq

/-- The state of a `camera::Pinhole` object as used by `process_innerGrids`:
scale, offset, principal point and ratio lock, plus the opaque distortion
maps `get_ud_pixel`, `removeDistortion` and `ima2cam` of the external
camera abstraction, kept as function-valued fields. -/
structure PinholeData where
  scale : ℚ × ℚ
  offset : ℚ × ℚ
  principalPoint : ℚ × ℚ
  ratioLocked : Bool
  hasDistortion : Bool
  ud : Pix → Pix
  removeDistortion : Pix → Pix
  ima2cam : Pix → Pix

/-- An intrinsic as stored in the scene (`camera::IntrinsicBase`); the
`dynamic_pointer_cast<camera::Pinhole>` succeeds exactly on the first
constructor. -/
inductive IntrinsicBase where
  | pinholeCam (p : PinholeData)
  | otherCam

/-- The scene (`sfmData::SfMData`), with poses of an abstract type `Pose`
(the external `sfmData::CameraPose`). -/
structure SfMData (Pose : Type _) where
  views : List (ℕ × View)
  intrinsics : List (ℕ × IntrinsicBase)
  poses : List (ℕ × Pose)
  landmarks : List (ℕ × Landmark)

/-! ## Hierarchical board ordering (`process_innerGrids`, lines 112-152) -/

/-- Squared Euclidean distance between two 2D points; comparing squared
distances is equivalent to comparing the norms the code computes. -/
def sqDist (a b : Pix) : ℚ := (a.1 - b.1) ^ 2 + (a.2 - b.2) ^ 2

/-- Minimal (squared) distance from any defined corner of the board to the
image center: the running minimum initialized to
`std::numeric_limits<double>::max()` (modelled by `⊤`), taking `corners[cid]`
only for defined cells.  Out-of-range corner identifiers read a
default corner, as any total model of the C++ vector access must. -/
def boardMinSqDist (corners : List CheckerBoardCorner) (center : Pix)
    (b : CheckerBoard) : WithTop ℚ :=
  ((boardCells b).map (fun c =>
      sqDist (corners.getD c.2.2 ⟨(0, 0)⟩).center center)).foldr
    (fun d m => min (d : WithTop ℚ) m) ⊤

/-- The comparator passed to `std::sort`: strictly smaller minimal corner
distance to the image center. -/
def boardLess (corners : List CheckerBoardCorner) (center : Pix)
    (a b : CheckerBoard) : Bool :=
  decide (boardMinSqDist corners center a < boardMinSqDist corners center b)

/-- The `std::sort` call on the board vector, modelled by a stable merge
sort whose non-strict order is the negation of the code's strict
comparator (the sortedness guarantee of `std::sort`). -/
def sortBoards (corners : List CheckerBoardCorner) (center : Pix)
    (boards : List CheckerBoard) : List CheckerBoard :=
  boards.mergeSort (fun a b => !boardLess corners center b a)

/-! ## Single-image nested-board calibration (`process_innerGrids`) -/

/-- Mutable state threaded through the per-board loop of
`process_innerGrids`: the landmark, pose and view maps of the scene, the
synthetic square size `localSquareSize` and the acceptance counter
`idx_checkerboard_valid`. -/
structure InnerState (Pose : Type _) where
  landmarks : List (ℕ × Landmark)
  poses : List (ℕ × Pose)
  views : List (ℕ × View)
  localSquareSize : ℚ
  idxValid : ℕ

/-- The square-size update at the end of an accepted board:
`if (idx_checkerboard_valid < 2) localSquareSize *= 2.0;`. -/
def nextSquareSize (sz : ℚ) (idxValid : ℕ) : ℚ :=
  if idxValid < 2 then sz * 2 else sz

/-- Processing of one defined cell `(i, j, cid)` of an accepted board:
builds the reference point `((j - cx)·sz, (i - cy)·sz, 0)`, undistorts the
detected corner, computes the observation weight
`1 / max(0.4, max(|campt.x|, |campt.y|))`, stores the landmark (with its
single observation keyed by the acceptance index) at key
`landmarks.size()`, and appends to the `refpts`/`points` vectors. -/
def boardCellStep (pinhole : PinholeData) (useSimplePinhole : Bool)
    (corners : List CheckerBoardCorner) (idxValid : ℕ) (sz cx cy : ℚ)
    (acc : List (ℕ × Landmark) × List (ℚ × ℚ × ℚ) × List Pix)
    (c : ℕ × ℕ × ℕ) :
    List (ℕ × Landmark) × List (ℚ × ℚ × ℚ) × List Pix :=
  let refpt : ℚ × ℚ × ℚ := (((c.2.1 : ℚ) - cx) * sz, ((c.1 : ℚ) - cy) * sz, 0)
  let pos := acc.1.length
  let corner := (corners.getD c.2.2 ⟨(0, 0)⟩).center
  let curpt := pinhole.ud corner
  let campt := pinhole.removeDistortion (pinhole.ima2cam corner)
  let scale := max (2/5 : ℚ) (max |campt.1| |campt.2|)
  let nobs := if useSimplePinhole then curpt else corner
  let obs : Observation := ⟨nobs, pos, 1 / scale⟩
  let l : Landmark := ⟨refpt, [(idxValid, obs)]⟩
  (aset acc.1 pos l, acc.2.1 ++ [refpt], acc.2.2 ++ [curpt])

/-- The cell-data construction of an accepted board (lines 170-252): fold
`boardCellStep` over the defined cells, starting from the scene's current
landmark map and empty `refpts`/`points` vectors; `cx`/`cy` are the
integer halves of the board dimensions (the C++ integer division
`board.cols() / 2` assigned to a `double`). -/
def boardFitData {Pose : Type _} (useSimplePinhole : Bool) (pinhole : PinholeData)
    (corners : List CheckerBoardCorner) (st : InnerState Pose) (board : CheckerBoard) :
    List (ℕ × Landmark) × List (ℚ × ℚ × ℚ) × List Pix :=
  (boardCells board).foldl
    (boardCellStep pinhole useSimplePinhole corners st.idxValid st.localSquareSize
      ((boardCols board / 2 : ℕ) : ℚ) ((boardRows board / 2 : ℕ) : ℚ))
    (st.landmarks, [], [])

/-- One iteration of the board loop of `process_innerGrids` (lines
159-296).  Boards with fewer than 30 defined corners are skipped with the
state unchanged (`continue`).  Otherwise the cell data is built by
`boardFitData`, the robust P3P resection (`ACRANSAC` with the `P3PSolver`
kernel, followed by `KRt_from_P` and the pose construction — external,
taken as the `ransac` oracle returning the recovered pose and the inlier
count) is run; fewer than 10 inliers is a hard failure (`return false`,
modelled `none`); an accepted board stores its pose and synthetic view
under the acceptance index, doubles the square size while
`idx_checkerboard_valid < 2` and increments the acceptance index. -/
def processBoard {Pose : Type _}
    (ransac : List Pix → List (ℚ × ℚ × ℚ) → PinholeData → Pose × ℕ)
    (useSimplePinhole : Bool) (pinhole : PinholeData) (view : View)
    (corners : List CheckerBoardCorner)
    (st : InnerState Pose) (board : CheckerBoard) : Option (InnerState Pose) :=
  if countPoints board < 30 then some st
  else
    let data := boardFitData useSimplePinhole pinhole corners st board
    let res := ransac data.2.2 data.2.1 pinhole
    if res.2 < 10 then none
    else some
      { landmarks := data.1
        poses := aset st.poses st.idxValid res.1
        views := aset st.views st.idxValid
          { view with viewId := st.idxValid, poseId := st.idxValid }
        localSquareSize := nextSquareSize st.localSquareSize st.idxValid
        idxValid := st.idxValid + 1 }

/-- The board loop of `process_innerGrids`: boards in order; a failed board
aborts the whole loop. -/
def processBoards {Pose : Type _}
    (ransac : List Pix → List (ℚ × ℚ × ℚ) → PinholeData → Pose × ℕ)
    (useSimplePinhole : Bool) (pinhole : PinholeData) (view : View)
    (corners : List CheckerBoardCorner) :
    InnerState Pose → List CheckerBoard → Option (InnerState Pose)
  | st, [] => some st
  | st, b :: rest =>
    match processBoard ransac useSimplePinhole pinhole view corners st b with
    | none => none
    | some st' => processBoards ransac useSimplePinhole pinhole view corners st' rest

/-- The simple-pinhole aspect-correction step (lines 320-337): lock the
scale ratio, rewrite every observation's y-coordinate through
`ny = (y - principalPoint.y) / scale(1) * scale(0) + principalPoint.y`,
then force `scale(1) = scale(0)`. -/
def aspectStep (ph : PinholeData) (landmarks : List (ℕ × Landmark)) :
    PinholeData × List (ℕ × Landmark) :=
  let ph1 := { ph with ratioLocked := true }
  let scale := ph1.scale
  let lms := landmarks.map (fun kl =>
    (kl.1, { kl.2 with observations := kl.2.observations.map (fun ko =>
      (ko.1, { ko.2 with x :=
        (ko.2.x.1,
         (ko.2.x.2 - ph1.principalPoint.2) / scale.2 * scale.1
           + ph1.principalPoint.2) })) }))
  ({ ph1 with scale := (scale.1, scale.1) }, lms)

/-- Body of `process_innerGrids` up to (but excluding) the final
view/pose replacement: the guard checks, the board ordering, the board
loop, the optional simple-pinhole stripping, the first bundle adjustment
(external solver, taken as the `ba` oracle mutating the scene), and in the
simple-pinhole variant the aspect-correction step followed by the second
bundle adjustment.  Returns the original view identifier, the original
view object and the refined scene; `none` models `return false` (and the
null dereference a missing view would be). -/
def innerGridsBody {Pose : Type _}
    (ransac : List Pix → List (ℚ × ℚ × ℚ) → PinholeData → Pose × ℕ)
    (ba : SfMData Pose → Option (SfMData Pose))
    (sfmData : SfMData Pose) (boardsAllImages : List (ℕ × CheckerDetector))
    (useSimplePinhole : Bool) : Option (ℕ × View × SfMData Pose) :=
  if boardsAllImages.length ≠ 1 then none
  else
    match boardsAllImages.head? with
    | none => none
    | some (viewId, detector) =>
      match alookup sfmData.views viewId with
      | none => none
      | some view =>
      match alookup sfmData.intrinsics view.intrinsicId with
      | none => none
      | some IntrinsicBase.otherCam => none
      | some (IntrinsicBase.pinholeCam pinhole) =>
        let center : Pix := ((view.width : ℚ) / 2, (view.height : ℚ) / 2)
        if detector.boards.length < 1 then none
        else
          let boards := sortBoards detector.corners center detector.boards
          match processBoards ransac useSimplePinhole pinhole view detector.corners
              { landmarks := [], poses := [], views := sfmData.views,
                localSquareSize := 1/4, idxValid := 0 } boards with
          | none => none
          | some st =>
            let pinhole1 := if useSimplePinhole then
                { pinhole with offset := (0, 0), hasDistortion := false }
              else pinhole
            let scene1 : SfMData Pose :=
              { views := st.views
                intrinsics := aset sfmData.intrinsics view.intrinsicId
                  (IntrinsicBase.pinholeCam pinhole1)
                poses := st.poses
                landmarks := st.landmarks }
            match ba scene1 with
            | none => none
            | some scene2 =>
              if useSimplePinhole then
                match alookup scene2.intrinsics view.intrinsicId with
                | some (IntrinsicBase.pinholeCam pinhole2) =>
                  let corrected := aspectStep pinhole2 scene2.landmarks
                  let scene3 : SfMData Pose :=
                    { scene2 with
                      intrinsics := aset scene2.intrinsics view.intrinsicId
                        (IntrinsicBase.pinholeCam corrected.1)
                      landmarks := corrected.2 }
                  match ba scene3 with
                  | none => none
                  | some scene4 => some (viewId, view, scene4)
                | _ => none
              else
                some (viewId, view, scene2)

/-- The final view/pose replacement of `process_innerGrids` (lines 356-363):
clear the view map and keep only the original view under its original
identifier; read the pose under synthetic index 0 (a `std::map::operator[]`
read, default-constructing when absent), clear the pose map and store that
pose under the original view identifier. -/
def finalizeScene {Pose : Type _} (dfltPose : Pose) (viewId : ℕ) (view : View)
    (s : SfMData Pose) : SfMData Pose :=
  { s with views := [(viewId, view)]
           poses := [(viewId, agetD s.poses 0 dfltPose)] }

/-- Function `process_innerGrids`: the body followed by the final view/pose
replacement; `none` models `return false`, `some` the mutated scene on
`return true`. -/
def processInnerGrids {Pose : Type _} (dfltPose : Pose)
    (ransac : List Pix → List (ℚ × ℚ × ℚ) → PinholeData → Pose × ℕ)
    (ba : SfMData Pose → Option (SfMData Pose))
    (sfmData : SfMData Pose) (boardsAllImages : List (ℕ × CheckerDetector))
    (useSimplePinhole : Bool) : Option (SfMData Pose) :=
  (innerGridsBody ransac ba sfmData boardsAllImages useSimplePinhole).map
    (fun r => finalizeScene dfltPose r.1 r.2.1 r.2.2)

/-- The synthetic square size applied to the n-th accepted board: the
initial `localSquareSize = 0.25` updated once per accepted board by
`nextSquareSize`. -/
def appliedSquareSize : ℕ → ℚ
  | 0 => 1/4
  | n + 1 => nextSquareSize (appliedSquareSize n) n

/-! ## Multi-view (Zhang) calibration (`process_basic`)

The closed-form intrinsic extraction works on IEEE doubles whose
non-finite states are the subject of claim C2, so its arithmetic is
modelled by `DReal`: a rational tagged finite, or `nan` (all IEEE
non-finite values — NaN and the infinities produced by division by zero —
collapsed into the single non-finite state `nan`, which every arithmetic
operation propagates). -/

/-- A machine double for the Zhang extraction: finite rational value or a
non-finite state. -/
inductive DReal where
  | fin (q : ℚ)
  | nan
  deriving DecidableEq

instance : Add DReal :=
  ⟨fun a b => match a, b with
    | DReal.fin x, DReal.fin y => DReal.fin (x + y)
    | _, _ => DReal.nan⟩

instance : Sub DReal :=
  ⟨fun a b => match a, b with
    | DReal.fin x, DReal.fin y => DReal.fin (x - y)
    | _, _ => DReal.nan⟩

instance : Mul DReal :=
  ⟨fun a b => match a, b with
    | DReal.fin x, DReal.fin y => DReal.fin (x * y)
    | _, _ => DReal.nan⟩

instance : Neg DReal :=
  ⟨fun a => match a with
    | DReal.fin x => DReal.fin (-x)
    | _ => DReal.nan⟩

instance : Div DReal :=
  ⟨fun a b => match a, b with
    | DReal.fin x, DReal.fin y => if y = 0 then DReal.nan else DReal.fin (x / y)
    | _, _ => DReal.nan⟩

/-- Rational square root used by `dsqrt`, exact on quotients of perfect
squares (the only finite inputs the development evaluates it on; on other
inputs it is the same kind of approximation a floating `sqrt` is). -/
def ratSqrt (q : ℚ) : ℚ := (Nat.sqrt q.num.toNat : ℚ) / (Nat.sqrt q.den : ℚ)

/-- Model of `sqrt` on doubles: NaN on a negative operand, NaN-propagating,
`ratSqrt` on non-negative finite operands. -/
def dsqrt : DReal → DReal
  | DReal.fin q => if q < 0 then DReal.nan else DReal.fin (ratSqrt q)
  | DReal.nan => DReal.nan

/-- True exactly on the non-finite state. -/
def DReal.isNan : DReal → Bool
  | DReal.fin _ => false
  | DReal.nan => true

/-- A 3x3 matrix of doubles (the calibration matrix `A` built by the Zhang
extraction). -/
structure Mat3D where
  m00 : DReal
  m01 : DReal
  m02 : DReal
  m10 : DReal
  m11 : DReal
  m12 : DReal
  m20 : DReal
  m21 : DReal
  m22 : DReal
  deriving DecidableEq

/-- The identity matrix (`Eigen::Matrix3d::Identity()`). -/
def identityD : Mat3D :=
  ⟨DReal.fin 1, DReal.fin 0, DReal.fin 0,
   DReal.fin 0, DReal.fin 1, DReal.fin 0,
   DReal.fin 0, DReal.fin 0, DReal.fin 1⟩

/-- True when some entry of the matrix is non-finite. -/
def hasNanEntry (A : Mat3D) : Bool :=
  A.m00.isNan || A.m01.isNan || A.m02.isNan ||
  A.m10.isNan || A.m11.isNan || A.m12.isNan ||
  A.m20.isNan || A.m21.isNan || A.m22.isNan

/-- The singular vector `n` associated with the smallest singular value of
the stacked constraint matrix `V` (output of the external
`Eigen::JacobiSVD`). -/
structure SvdVec where
  n0 : ℚ
  n1 : ℚ
  n2 : ℚ
  n3 : ℚ
  n4 : ℚ
  n5 : ℚ
  deriving DecidableEq

/-- The distinct entries of the symmetric matrix `B` reconstructed from
`n` (lines 502-511): `B(0,0)=n0`, `B(0,1)=B(1,0)=n1`, `B(1,1)=n2`,
`B(0,2)=B(2,0)=n3`, `B(1,2)=B(2,1)=n4`, `B(2,2)=n5`. -/
structure ZhangB where
  b00 : DReal
  b01 : DReal
  b11 : DReal
  b02 : DReal
  b12 : DReal
  b22 : DReal
  deriving DecidableEq

/-- Reconstruction of `B` from the singular vector (lines 502-511). -/
def buildB (n : SvdVec) : ZhangB :=
  ⟨DReal.fin n.n0, DReal.fin n.n1, DReal.fin n.n2,
   DReal.fin n.n3, DReal.fin n.n4, DReal.fin n.n5⟩

/-- The closed-form intrinsic extraction from `B` (lines 514-527): the
classical `v0, λ, α, β, γ, u0` expressions, assembled into
`A = Identity` with the five upper entries set.  The source performs no
check on the sign of any square-root operand or denominator. -/
def zhangExtract (B : ZhangB) : Mat3D :=
  let v0 := (B.b01 * B.b02 - B.b00 * B.b12) / (B.b00 * B.b11 - B.b01 * B.b01)
  let lambda := B.b22 - (B.b02 * B.b02 + v0 * (B.b01 * B.b02 - B.b00 * B.b12)) / B.b00
  let alpha := dsqrt (lambda / B.b00)
  let beta := dsqrt (lambda * B.b00 / (B.b00 * B.b11 - B.b01 * B.b01))
  let gamma := -B.b01 * alpha * alpha * beta / lambda
  let u0 := gamma * v0 / beta - B.b02 * alpha * alpha / lambda
  { identityD with m00 := alpha, m11 := beta, m01 := gamma, m02 := u0, m12 := v0 }

/-- The state of a `camera::Pinhole` as used by `process_basic`: its
calibration matrix and the opaque undistortion map, plus the image size
the homography kernel is configured with. -/
structure BasicPinhole where
  K : Mat3D
  ud : Pix → Pix
  w : ℕ
  h : ℕ

/-- Member `setK`: overwrite the calibration matrix. -/
def setK (ph : BasicPinhole) (A : Mat3D) : BasicPinhole := { ph with K := A }

/-- Lines 514-530 of `process_basic`: extract the intrinsics from the
reconstructed `B` and unconditionally write the resulting matrix into the
pinhole via `setK` — there is no failure outcome in this step. -/
def zhangSolveIntrinsic (n : SvdVec) (ph : BasicPinhole) : BasicPinhole :=
  setK ph (zhangExtract (buildB n))

/-- An intrinsic of the scene as seen by `process_basic`. -/
inductive BasicIntrinsicBase where
  | basicPinhole (p : BasicPinhole)
  | basicOther

/-- The pattern-plane reference points of the view's board (lines 434-436
of `process_basic`: `(j·squareSize, i·squareSize)`, skipping undefined
cells). -/
def viewRefPts (squareSize : ℚ) (b : CheckerBoard) : List Pix :=
  (boardCells b).map (fun c => ((c.2.1 : ℚ) * squareSize, (c.1 : ℚ) * squareSize))

/-- The undistorted detected points of the view's board (lines 438-440,
skipping undefined cells). -/
def viewCurPts (ph : BasicPinhole) (detector : CheckerDetector) (b : CheckerBoard) : List Pix :=
  (boardCells b).map (fun c => ph.ud (detector.corners.getD c.2.2 ⟨(0, 0)⟩).center)

/-- One iteration of the per-view homography loop of `process_basic`
(lines 400-481), folding over the view map in key order with state
`(max_checkerboard_w, max_checkerboard_h, homographies)`.  Views of
another intrinsic are skipped; a view whose detection does not hold
exactly one checkerboard is skipped (after the `std::map::operator[]`
read of `boardsAllImages`, which default-constructs an empty detector for
an absent key); otherwise the board sizes update the maxima, the
reference/undistorted point lists are built and the robust homography fit
(external `ACRANSAC` with the `Homography4PSolver` kernel, taken as the
`hom` oracle returning the model and the inlier count) is run: fewer than
10 inliers drops the view (`continue`), otherwise its homography is
recorded under the view identifier. -/
def viewStep {H : Type _}
    (hom : List Pix → List Pix → ℕ → ℕ → H × ℕ)
    (boardsAllImages : List (ℕ × CheckerDetector))
    (intrinsicId : ℕ) (ph : BasicPinhole) (squareSize : ℚ)
    (st : ℕ × ℕ × List (ℕ × H)) (pv : ℕ × View) : ℕ × ℕ × List (ℕ × H) :=
  if pv.2.intrinsicId ≠ intrinsicId then st
  else
    let detector := agetD boardsAllImages pv.1 ⟨[], []⟩
    if detector.boards.length ≠ 1 then st
    else
      let b := detector.boards.headD []
      let maxW := max (boardCols b) st.1
      let maxH := max (boardRows b) st.2.1
      let res := hom (viewRefPts squareSize b) (viewCurPts ph detector b) ph.w ph.h
      if res.2 < 10 then (maxW, maxH, st.2.2)
      else (maxW, maxH, aset st.2.2 pv.1 res.1)

/-- The per-view homography loop of `process_basic` for one intrinsic. -/
def collectHomographies {H : Type _}
    (hom : List Pix → List Pix → ℕ → ℕ → H × ℕ)
    (boardsAllImages : List (ℕ × CheckerDetector))
    (intrinsicId : ℕ) (ph : BasicPinhole) (squareSize : ℚ)
    (views : List (ℕ × View)) (st : ℕ × ℕ × List (ℕ × H)) :
    ℕ × ℕ × List (ℕ × H) :=
  views.foldl (viewStep hom boardsAllImages intrinsicId ph squareSize) st

/-- The C macro `EXIT_FAILURE`. -/
def EXIT_FAILURE : ℤ := 1

/-- The implicit C++ conversion from `int` to `bool`: nonzero is `true`. -/
def cppIntAsBool (n : ℤ) : Bool := decide (n ≠ 0)

/-- The per-intrinsic loop of `process_basic` (lines 381-644): a
non-pinhole intrinsic aborts with `false`; otherwise the homographies are
collected, the Zhang extraction runs and its matrix is written into the
intrinsic; on the first intrinsic the landmark grid is created and the
board dimensions are recorded, on later intrinsics inconsistent board
dimensions abort with `false`; the pose decomposition, the residual
bookkeeping (which only populate the scene handed to the solver) and the
external bundle adjustment are absorbed into the `adjust` oracle, whose
failure aborts with `false`.  Returns the `bool` result together with the
intrinsic map as mutated so far. -/
def processIntrinsicsLoop {H : Type _}
    (hom : List Pix → List Pix → ℕ → ℕ → H × ℕ)
    (svd : List (ℕ × H) → SvdVec) (adjust : ℕ → Bool)
    (squareSize : ℚ) (views : List (ℕ × View))
    (boardsAllImages : List (ℕ × CheckerDetector))
    (acc : List (ℕ × BasicIntrinsicBase)) (first : Bool) (gW gH : ℕ) :
    List (ℕ × BasicIntrinsicBase) → Bool × List (ℕ × BasicIntrinsicBase)
  | [] => (true, acc)
  | (intrinsicId, intr) :: rest =>
    match intr with
    | BasicIntrinsicBase.basicOther => (false, acc)
    | BasicIntrinsicBase.basicPinhole ph =>
      let col := collectHomographies hom boardsAllImages intrinsicId ph squareSize
        views (0, 0, [])
      let ph1 := zhangSolveIntrinsic (svd col.2.2) ph
      let acc1 := aset acc intrinsicId (BasicIntrinsicBase.basicPinhole ph1)
      if first then
        if adjust intrinsicId then
          processIntrinsicsLoop hom svd adjust squareSize views boardsAllImages
            acc1 false col.1 col.2.1 rest
        else (false, acc1)
      else
        if gH ≠ col.2.1 ∨ gW ≠ col.1 then (false, acc1)
        else if adjust intrinsicId then
          processIntrinsicsLoop hom svd adjust squareSize views boardsAllImages
            acc1 first gW gH rest
        else (false, acc1)

/-- Function `process_basic` (lines 368-647): with fewer than 2 detection
sets it logs and executes `return EXIT_FAILURE;` — the function's return
type is `bool`, so the integer `EXIT_FAILURE` undergoes the implicit
conversion `cppIntAsBool`; otherwise the per-intrinsic loop runs.  Returns
the `bool` result together with the scene's intrinsic map (the part of the
scene mutation the claims observe). -/
def processBasic {H : Type _}
    (hom : List Pix → List Pix → ℕ → ℕ → H × ℕ)
    (svd : List (ℕ × H) → SvdVec) (adjust : ℕ → Bool)
    (squareSize : ℚ) (views : List (ℕ × View))
    (intrinsics : List (ℕ × BasicIntrinsicBase))
    (boardsAllImages : List (ℕ × CheckerDetector)) :
    Bool × List (ℕ × BasicIntrinsicBase) :=
  if boardsAllImages.length < 2 then (cppIntAsBool EXIT_FAILURE, intrinsics)
  else processIntrinsicsLoop hom svd adjust squareSize views boardsAllImages
    intrinsics true 0 0 intrinsics

/-! ## Concrete instances used to exercise the definitions -/

/-- A fully defined `rows x cols` checkerboard whose corner identifiers
count row-major from `base`. -/
def fullBoard (rows cols base : ℕ) : CheckerBoard :=
  (List.range rows).map (fun i => (List.range cols).map (fun j => some (base + i * cols + j)))

/-- A row of `n` detected corners with centers `(k, 0)`. -/
def cornersRow (n : ℕ) : List CheckerBoardCorner :=
  (List.range n).map (fun k => ⟨((k : ℚ), 0)⟩)

/-- A distortion-free pinhole with unit scale (all camera maps are the
identity). -/
def pinholeId : PinholeData :=
  { scale := (1, 1), offset := (0, 0), principalPoint := (0, 0),
    ratioLocked := false, hasDistortion := true,
    ud := id, removeDistortion := id, ima2cam := id }

/-- A sample view: identifier 5, intrinsic 2, a 100x100 image. -/
def view0 : View := ⟨5, 5, 2, 100, 100⟩

/-- The loop state `process_innerGrids` starts from, for a scene whose view
map holds `view0`, with poses of type `ℕ`. -/
def innerInit : InnerState ℕ :=
  { landmarks := [], poses := [], views := [(5, view0)],
    localSquareSize := 1/4, idxValid := 0 }

/-- A resection oracle whose pose is the number of fitted points and whose
inlier set is all points. -/
def ransacAll (pts : List Pix) (_refs : List (ℚ × ℚ × ℚ)) (_ph : PinholeData) : ℕ × ℕ :=
  (pts.length, pts.length)

/-- A resection oracle that always reports 3 inliers (below the
threshold of 10). -/
def ransacPoor (_pts : List Pix) (_refs : List (ℚ × ℚ × ℚ)) (_ph : PinholeData) : ℕ × ℕ :=
  (0, 3)

/-- A bundle-adjustment oracle that converges without moving anything. -/
def baId : SfMData ℕ → Option (SfMData ℕ) := fun s => some s

/-- A scene with the single view `view0` and the pinhole intrinsic 2. -/
def sceneOneView : SfMData ℕ :=
  { views := [(5, view0)]
    intrinsics := [(2, IntrinsicBase.pinholeCam pinholeId)]
    poses := []
    landmarks := [] }

/-- A detection input: one image (view 5) holding one fully defined 6x6
board. -/
def boardsOne : List (ℕ × CheckerDetector) :=
  [(5, ⟨[fullBoard 6 6 0], cornersRow 36⟩)]

/-- The scene `innerGridsBody` produces on `sceneOneView`/`boardsOne` with
the `ransacAll` and `baId` oracles. -/
def sceneAfterBody : SfMData ℕ :=
  ((innerGridsBody ransacAll baId sceneOneView boardsOne false).map
    (fun r => r.2.2)).getD ⟨[], [], [], []⟩

/-- A basic pinhole with identity calibration matrix and no distortion. -/
def basicPh : BasicPinhole := ⟨identityD, id, 100, 100⟩

/-- A singular vector on which `B(0,0)B(1,1) - B(0,1)^2 = -3 < 0`: the
degenerate input of claim C2. -/
def badSvdVec : SvdVec := ⟨1, 2, 1, 0, 0, 1⟩

/-- A homography oracle reporting every point an inlier. -/
def homAll (refpts : List Pix) (_pts : List Pix) (_w _h : ℕ) : Unit × ℕ :=
  ((), refpts.length)

/-- A homography oracle reporting 4 inliers (below the threshold of 10). -/
def homPoor (_refpts : List Pix) (_pts : List Pix) (_w _h : ℕ) : Unit × ℕ :=
  ((), 4)

/-! ## Helper lemmas -/

theorem incrAt_sum (l : List ℕ) (i : ℕ) (h : i < l.length) :
    (incrAt l i).sum = l.sum + 1 := by
  induction l generalizing i with
  | nil => simp at h
  | cons a t ih =>
    cases i with
    | zero => simp [incrAt]; omega
    | succ n =>
      simp only [incrAt, List.sum_cons]
      rw [ih n (by simpa using h)]
      omega

/-! ## Claim C10 -/

/-- C10: a single `Histogram::Add(x)` on a histogram with `nBins ≥ 1`,
`Start < End` and the constructor's invariants increments exactly one
counter by exactly one — the underflow counter when `x < Start`, the
overflow counter when `x > End`, and otherwise the bin at index
`min(floor((x - Start)·nBins/(End - Start)), nBins - 1)`, which is always
a valid index below `nBins` (`x = End` is clamped into the last bin); in
every case `underflow + overflow + Σ freq` grows by exactly one. -/
theorem histAdd_exactly_one_counter (h : Histogram) (x : ℚ)
    (hn : 1 ≤ h.nBins) (hlen : h.freq.length = h.nBins)
    (hq : h.nBins_by_interval = (h.nBins : ℚ) / (h.End - h.Start)) :
    (x < h.Start → histAdd h x = { h with underflow := h.underflow + 1 }) ∧
    (¬ x < h.Start → x > h.End →
      histAdd h x = { h with overflow := h.overflow + 1 }) ∧
    (¬ x < h.Start → ¬ x > h.End →
      min (((x - h.Start) * (h.nBins : ℚ) / (h.End - h.Start)).floor.toNat)
          (h.nBins - 1) < h.nBins ∧
      histAdd h x = { h with freq := (incrAt h.freq
        (min (((x - h.Start) * (h.nBins : ℚ) / (h.End - h.Start)).floor.toNat)
          (h.nBins - 1))) }) ∧
    ((histAdd h x).underflow + (histAdd h x).overflow + (histAdd h x).freq.sum
      = h.underflow + h.overflow + h.freq.sum + 1) := by
  have hidx : (x - h.Start) * h.nBins_by_interval
      = (x - h.Start) * (h.nBins : ℚ) / (h.End - h.Start) := by
    rw [hq, mul_div_assoc]
  have hmin : min (((x - h.Start) * (h.nBins : ℚ) / (h.End - h.Start)).floor.toNat)
      (h.nBins - 1) < h.nBins := by
    have := Nat.min_le_right
      (((x - h.Start) * (h.nBins : ℚ) / (h.End - h.Start)).floor.toNat) (h.nBins - 1)
    omega
  refine ⟨?_, ?_, ?_, ?_⟩
  · intro hlt
    simp [histAdd, hlt]
  · intro h1 h2
    simp [histAdd, h1, h2]
  · intro h1 h2
    refine ⟨hmin, ?_⟩
    simp only [histAdd, if_neg h1, if_neg h2, hidx]
  · by_cases h1 : x < h.Start
    · simp [histAdd, h1]
      omega
    · by_cases h2 : x > h.End
      · simp [histAdd, h1, h2]
        omega
      · simp only [histAdd, if_neg h1, if_neg h2, hidx]
        rw [incrAt_sum _ _ (by rw [hlen]; exact hmin)]
        omega

/-- Witness for C10: adding `1/2` to a fresh `Histogram(0, 1, 10)` grows
the total count by one. -/
theorem histAdd_exactly_one_counter_witness :
    (histAdd (mkHistogram 0 1 10) (1/2)).underflow
      + (histAdd (mkHistogram 0 1 10) (1/2)).overflow
      + (histAdd (mkHistogram 0 1 10) (1/2)).freq.sum
    = (mkHistogram 0 1 10).underflow + (mkHistogram 0 1 10).overflow
      + (mkHistogram 0 1 10).freq.sum + 1 :=
  (histAdd_exactly_one_counter (mkHistogram 0 1 10) (1/2)
    (by norm_num [mkHistogram]) (by norm_num [mkHistogram])
    (by norm_num [mkHistogram])).2.2.2

/-! ## Claim C9 -/

/-- C9: with pinhole intrinsics on both views, when every common track is
rejected by the epipolar-distance filter (`distance > maxDistance`) or the
positive-depth filter (`X(2) < 0`) the angle vector is empty and the
median read `angles[angles.size()/2]` is out of bounds (modelled `none`),
while `estimatePairAngle` still returns `true` with empty `usedTracks`;
when at least one common track survives both filters the median read is
well-defined.  Non-emptiness of the filtered track set is thus a
necessary precondition for the result angle to be defined. -/
theorem estimatePairAngle_median_needs_tracks
    (dist triZ angleOf : PairTrack → ℚ) (maxDistance : ℚ)
    (tracks : List PairTrack) :
    (tracks.filter (fun t => !(dist t > maxDistance) && !(triZ t < 0)) = [] →
      estimatePairAngle CamKind.pinholeCam CamKind.pinholeCam dist triZ angleOf
        maxDistance tracks = (true, none, [])) ∧
    (tracks.filter (fun t => !(dist t > maxDistance) && !(triZ t < 0)) ≠ [] →
      (estimatePairAngle CamKind.pinholeCam CamKind.pinholeCam dist triZ angleOf
          maxDistance tracks).1 = true ∧
      ∃ q, (estimatePairAngle CamKind.pinholeCam CamKind.pinholeCam dist triZ angleOf
          maxDistance tracks).2.1 = some q) := by
  constructor
  · intro hf
    simp [estimatePairAngle, hf]
  · intro hf
    constructor
    · simp [estimatePairAngle]
    · set kept := tracks.filter (fun t => !(dist t > maxDistance) && !(triZ t < 0))
        with hkept
      have hk : 0 < kept.length := List.length_pos.mpr hf
      have hlt : (kept.map angleOf).length / 2
          < ((kept.map angleOf).mergeSort (fun a b => decide (a ≤ b))).length := by
        simp only [List.length_mergeSort, List.length_map]
        exact Nat.div_lt_self hk (by norm_num)
      have hval : (estimatePairAngle CamKind.pinholeCam CamKind.pinholeCam dist triZ
          angleOf maxDistance tracks).2.1
          = ((kept.map angleOf).mergeSort (fun a b => decide (a ≤ b)))[(kept.map
              angleOf).length / 2]? := by
        simp [estimatePairAngle, hkept]
      rw [hval, List.getElem?_eq_getElem hlt]
      exact ⟨_, rfl⟩

/-- Witness for C9: with one common track, an epipolar distance of 5
against a threshold of 4 empties the filter (the median read is out of
bounds yet the function returns true); with distance 0 the median read is
defined. -/
theorem estimatePairAngle_median_needs_tracks_witness :
    estimatePairAngle CamKind.pinholeCam CamKind.pinholeCam (fun _ => 5) (fun _ => 1)
      (fun _ => 1) 4 [⟨0⟩] = (true, none, [])
    ∧ ((estimatePairAngle CamKind.pinholeCam CamKind.pinholeCam (fun _ => 0) (fun _ => 1)
        (fun _ => 1) 4 [⟨0⟩]).1 = true
      ∧ ∃ q, (estimatePairAngle CamKind.pinholeCam CamKind.pinholeCam (fun _ => 0)
          (fun _ => 1) (fun _ => 1) 4 [⟨0⟩]).2.1 = some q) :=
  ⟨(estimatePairAngle_median_needs_tracks (fun _ => 5) (fun _ => 1) (fun _ => 1) 4
      [⟨0⟩]).1 (by norm_num [List.filter]),
   (estimatePairAngle_median_needs_tracks (fun _ => 0) (fun _ => 1) (fun _ => 1) 4
      [⟨0⟩]).2 (by norm_num [List.filter])⟩

/-! ## Claim C4 -/

/-- C4: in single-image nested-board mode the boards are processed in
order of increasing minimal distance of their defined corners to the image
center: for every pair of positions `i < j` in the sorted board vector the
board at `i` has minimal corner distance at most that of the board at `j`
(distances compared through their squares, which orders exactly as the
Euclidean norms the code compares); moreover the minimal distance of a
board only depends on the corners its defined cells reference — undefined
cells are never dereferenced into the corner list. -/
theorem sortBoards_ordered_by_min_distance
    (corners corners2 : List CheckerBoardCorner) (center : Pix)
    (boards : List CheckerBoard) (b : CheckerBoard) (i j : ℕ)
    (hi : i < (sortBoards corners center boards).length)
    (hj : j < (sortBoards corners center boards).length) (hij : i < j)
    (hagree : ∀ c ∈ boardCells b,
      corners.getD c.2.2 ⟨(0, 0)⟩ = corners2.getD c.2.2 ⟨(0, 0)⟩) :
    boardMinSqDist corners center ((sortBoards corners center boards).get ⟨i, hi⟩)
      ≤ boardMinSqDist corners center ((sortBoards corners center boards).get ⟨j, hj⟩)
    ∧ boardMinSqDist corners center b = boardMinSqDist corners2 center b := by
  constructor
  · have htrans : ∀ a b c : CheckerBoard,
        (!boardLess corners center b a) = true →
        (!boardLess corners center c b) = true →
        (!boardLess corners center c a) = true := by
      intro a b c hab hbc
      simp only [boardLess, Bool.not_eq_eq_eq_not, Bool.not_true, decide_eq_false_iff_not,
        not_lt] at hab hbc ⊢
      exact hab.trans hbc
    have htotal : ∀ a b : CheckerBoard,
        ((!boardLess corners center b a) || (!boardLess corners center a b)) = true := by
      intro a b
      simp only [boardLess, Bool.or_eq_true, Bool.not_eq_eq_eq_not, Bool.not_true,
        decide_eq_false_iff_not, not_lt]
      exact le_total _ _
    have hs := List.sorted_mergeSort htrans htotal boards
    rw [List.pairwise_iff_get] at hs
    have := hs ⟨i, hi⟩ ⟨j, hj⟩ hij
    simpa only [boardLess, Bool.not_eq_eq_eq_not, Bool.not_true, decide_eq_false_iff_not,
      not_lt, sortBoards] using this
  · unfold boardMinSqDist
    have hmap : (boardCells b).map
          (fun c => sqDist (corners.getD c.2.2 ⟨(0, 0)⟩).center center)
        = (boardCells b).map
          (fun c => sqDist (corners2.getD c.2.2 ⟨(0, 0)⟩).center center) :=
      List.map_congr_left (fun c hc => by rw [hagree c hc])
    rw [hmap]

/-- Witness for C4 at two one-cell boards: the board referencing corner 0
(at the image center) is ordered before the board referencing corner 1. -/
theorem sortBoards_ordered_by_min_distance_witness :
    boardMinSqDist (cornersRow 2) (0, 0)
        ((sortBoards (cornersRow 2) (0, 0) [fullBoard 1 1 1, fullBoard 1 1 0]).get
          ⟨0, by simp [sortBoards, List.length_mergeSort]⟩)
      ≤ boardMinSqDist (cornersRow 2) (0, 0)
        ((sortBoards (cornersRow 2) (0, 0) [fullBoard 1 1 1, fullBoard 1 1 0]).get
          ⟨1, by simp [sortBoards, List.length_mergeSort]⟩)
    ∧ boardMinSqDist (cornersRow 2) (0, 0) (fullBoard 1 1 0)
      = boardMinSqDist (cornersRow 2) (0, 0) (fullBoard 1 1 0) :=
  sortBoards_ordered_by_min_distance (cornersRow 2) (cornersRow 2) (0, 0)
    [fullBoard 1 1 1, fullBoard 1 1 0] (fullBoard 1 1 0) 0 1
    (by simp [sortBoards, List.length_mergeSort])
    (by simp [sortBoards, List.length_mergeSort]) (by norm_num)
    (fun c _ => rfl)

/-! ## Claim C6 -/

theorem aset_eq_append {α : Type _} (l : List (ℕ × α)) (k : ℕ) (v : α)
    (h : ∀ p ∈ l, p.1 ≠ k) : aset l k v = l ++ [(k, v)] := by
  induction l with
  | nil => rfl
  | cons p t ih =>
    obtain ⟨k', v'⟩ := p
    have hk : k' ≠ k := h (k', v') (by simp)
    simp only [aset, if_neg hk, List.cons_append, List.cons.injEq, true_and]
    exact ih (fun q hq => h q (by simp [hq]))

theorem alookup_aset_self {α : Type _} (l : List (ℕ × α)) (k : ℕ) (v : α) :
    alookup (aset l k v) k = some v := by
  induction l with
  | nil => simp [aset, alookup]
  | cons p t ih =>
    obtain ⟨k', v'⟩ := p
    by_cases h : k' = k
    · simp [aset, if_pos h, alookup]
    · simpa [aset, if_neg h, alookup, List.find?_cons, h] using ih

/-- Each cell processed by `boardCellStep` appends exactly one landmark at
the fresh key `landmarks.size()`, preserving the invariant that all
landmark keys are below the map size. -/
theorem boardCellStep_fold_length (ph : PinholeData) (usp : Bool)
    (corners : List CheckerBoardCorner) (idx : ℕ) (sz cx cy : ℚ)
    (cells : List (ℕ × ℕ × ℕ))
    (acc : List (ℕ × Landmark) × List (ℚ × ℚ × ℚ) × List Pix)
    (hk : ∀ p ∈ acc.1, p.1 < acc.1.length) :
    ((cells.foldl (boardCellStep ph usp corners idx sz cx cy) acc).1.length
        = acc.1.length + cells.length)
    ∧ (∀ p ∈ (cells.foldl (boardCellStep ph usp corners idx sz cx cy) acc).1,
        p.1 < (cells.foldl (boardCellStep ph usp corners idx sz cx cy) acc).1.length) := by
  induction cells generalizing acc with
  | nil => simpa using hk
  | cons c t ih =>
    obtain ⟨lm, hlm⟩ : ∃ lm, (boardCellStep ph usp corners idx sz cx cy acc c).1
        = aset acc.1 acc.1.length lm := ⟨_, rfl⟩
    have hfresh : ∀ p ∈ acc.1, p.1 ≠ acc.1.length := fun p hp => Nat.ne_of_lt (hk p hp)
    have happ : (boardCellStep ph usp corners idx sz cx cy acc c).1
        = acc.1 ++ [(acc.1.length, lm)] := by rw [hlm, aset_eq_append _ _ _ hfresh]
    have hk' : ∀ p ∈ (boardCellStep ph usp corners idx sz cx cy acc c).1,
        p.1 < (boardCellStep ph usp corners idx sz cx cy acc c).1.length := by
      rw [happ]
      intro p hp
      simp only [List.mem_append, List.mem_singleton] at hp
      simp only [List.length_append, List.length_singleton]
      rcases hp with hp | hp
      · exact Nat.lt_succ_of_lt (hk p hp)
      · subst hp; simp
    have := ih (boardCellStep ph usp corners idx sz cx cy acc c) hk'
    refine ⟨?_, this.2⟩
    rw [List.foldl_cons, this.1, happ]
    simp only [List.length_append, List.length_cons, List.length_nil]
    omega

/-- C6: in single-image nested-board mode a board with fewer than 30
defined corners is skipped with the loop state entirely unchanged — no
landmark, no pose, no synthetic view, no change of the acceptance index or
of the synthetic square size; a board with at least 30 defined corners
whose robust resection reaches the inlier threshold is accepted: the
acceptance index advances by one, one landmark per defined corner is
appended, and its pose and synthetic view are stored under the acceptance
index. -/
theorem processBoard_skip_below_30 {Pose : Type _}
    (ransac : List Pix → List (ℚ × ℚ × ℚ) → PinholeData → Pose × ℕ)
    (usp : Bool) (pinhole : PinholeData) (view : View)
    (corners : List CheckerBoardCorner) (st : InnerState Pose) (b : CheckerBoard)
    (hkeys : ∀ p ∈ st.landmarks, p.1 < st.landmarks.length) :
    (countPoints b < 30 → processBoard ransac usp pinhole view corners st b = some st) ∧
    (30 ≤ countPoints b →
      10 ≤ (ransac (boardFitData usp pinhole corners st b).2.2
              (boardFitData usp pinhole corners st b).2.1 pinhole).2 →
      ∃ st', processBoard ransac usp pinhole view corners st b = some st'
        ∧ st'.idxValid = st.idxValid + 1
        ∧ st'.landmarks.length = st.landmarks.length + countPoints b
        ∧ st'.localSquareSize = nextSquareSize st.localSquareSize st.idxValid
        ∧ alookup st'.poses st.idxValid
            = some (ransac (boardFitData usp pinhole corners st b).2.2
                (boardFitData usp pinhole corners st b).2.1 pinhole).1
        ∧ alookup st'.views st.idxValid
            = some { view with viewId := st.idxValid, poseId := st.idxValid }) := by
  constructor
  · intro hlt
    simp [processBoard, hlt]
  · intro hge hinl
    have hlen : (boardFitData usp pinhole corners st b).1.length
        = st.landmarks.length + countPoints b := by
      have := boardCellStep_fold_length pinhole usp corners st.idxValid
        st.localSquareSize ((boardCols b / 2 : ℕ) : ℚ) ((boardRows b / 2 : ℕ) : ℚ)
        (boardCells b) (st.landmarks, [], []) hkeys
      simpa [boardFitData, countPoints] using this.1
    have heq : processBoard ransac usp pinhole view corners st b = some
        { landmarks := (boardFitData usp pinhole corners st b).1
          poses := (aset st.poses st.idxValid
            (ransac (boardFitData usp pinhole corners st b).2.2
              (boardFitData usp pinhole corners st b).2.1 pinhole).1)
          views := (aset st.views st.idxValid
            { view with viewId := st.idxValid, poseId := st.idxValid })
          localSquareSize := nextSquareSize st.localSquareSize st.idxValid
          idxValid := st.idxValid + 1 } := by
      simp only [processBoard, if_neg (by omega : ¬ countPoints b < 30)]
      rw [if_neg (by omega : ¬ (ransac (boardFitData usp pinhole corners st b).2.2
        (boardFitData usp pinhole corners st b).2.1 pinhole).2 < 10)]
    exact ⟨_, heq, rfl, hlen, rfl, alookup_aset_self _ _ _, alookup_aset_self _ _ _⟩

/-- Witness for C6: a fully defined 2x2 board (4 corners) is skipped, and
the fully defined 6x6 board (36 corners) is accepted under the all-inlier
resection oracle. -/
theorem processBoard_skip_below_30_witness :
    processBoard ransacAll false pinholeId view0 (cornersRow 36) innerInit
        (fullBoard 2 2 0) = some innerInit
    ∧ ∃ st', processBoard ransacAll false pinholeId view0 (cornersRow 36) innerInit
          (fullBoard 6 6 0) = some st'
        ∧ st'.idxValid = innerInit.idxValid + 1
        ∧ st'.landmarks.length = innerInit.landmarks.length + countPoints (fullBoard 6 6 0)
        ∧ st'.localSquareSize = nextSquareSize innerInit.localSquareSize innerInit.idxValid
        ∧ alookup st'.poses innerInit.idxValid
            = some (ransacAll (boardFitData false pinholeId (cornersRow 36) innerInit
                  (fullBoard 6 6 0)).2.2
                (boardFitData false pinholeId (cornersRow 36) innerInit
                  (fullBoard 6 6 0)).2.1 pinholeId).1
        ∧ alookup st'.views innerInit.idxValid
            = some { view0 with viewId := innerInit.idxValid, poseId := innerInit.idxValid } :=
  ⟨(processBoard_skip_below_30 ransacAll false pinholeId view0 (cornersRow 36) innerInit
      (fullBoard 2 2 0) (by intro p hp; simp [innerInit] at hp)).1 (by decide),
   (processBoard_skip_below_30 ransacAll false pinholeId view0 (cornersRow 36) innerInit
      (fullBoard 6 6 0) (by intro p hp; simp [innerInit] at hp)).2 (by decide) (by decide)⟩

/-! ## Claim C5 -/

/-- C5: a robust-resection result with fewer than 10 inliers on an
accepted board makes `process_innerGrids` fail immediately — the board
loop returns `none` on the failing board without examining any later
board — while in multi-view mode a homography fit with fewer than 10
inliers merely skips that view: it contributes no homography and the
per-view loop proceeds with the remaining views. -/
theorem poseFailure_fatal_vs_view_skip {Pose H : Type _}
    (ransac : List Pix → List (ℚ × ℚ × ℚ) → PinholeData → Pose × ℕ)
    (usp : Bool) (pinhole : PinholeData) (view : View)
    (corners : List CheckerBoardCorner) (st : InnerState Pose)
    (b : CheckerBoard) (tail : List CheckerBoard)
    (hom : List Pix → List Pix → ℕ → ℕ → H × ℕ)
    (boardsAllImages : List (ℕ × CheckerDetector)) (intrinsicId : ℕ)
    (ph : BasicPinhole) (squareSize : ℚ) (mst : ℕ × ℕ × List (ℕ × H))
    (pv : ℕ × View) (rest : List (ℕ × View))
    (hmatch : pv.2.intrinsicId = intrinsicId)
    (hone : (agetD boardsAllImages pv.1 ⟨[], []⟩).boards.length = 1)
    (hinl : (hom
        (viewRefPts squareSize ((agetD boardsAllImages pv.1 ⟨[], []⟩).boards.headD []))
        (viewCurPts ph (agetD boardsAllImages pv.1 ⟨[], []⟩)
          ((agetD boardsAllImages pv.1 ⟨[], []⟩).boards.headD []))
        ph.w ph.h).2 < 10) :
    (processBoard ransac usp pinhole view corners st b = none →
      processBoards ransac usp pinhole view corners st (b :: tail) = none) ∧
    (30 ≤ countPoints b →
      (ransac (boardFitData usp pinhole corners st b).2.2
        (boardFitData usp pinhole corners st b).2.1 pinhole).2 < 10 →
      processBoard ransac usp pinhole view corners st b = none) ∧
    (viewStep hom boardsAllImages intrinsicId ph squareSize mst pv).2.2 = mst.2.2 ∧
    collectHomographies hom boardsAllImages intrinsicId ph squareSize (pv :: rest) mst
      = collectHomographies hom boardsAllImages intrinsicId ph squareSize rest
          (viewStep hom boardsAllImages intrinsicId ph squareSize mst pv) := by
  refine ⟨?_, ?_, ?_, ?_⟩
  · intro hfail
    simp [processBoards, hfail]
  · intro hge hlow
    simp only [processBoard, if_neg (by omega : ¬ countPoints b < 30)]
    rw [if_pos hlow]
  · simp only [viewStep, hmatch, ne_eq, not_true_eq_false, if_false, hone]
    rw [if_pos hinl]
  · simp [collectHomographies]

/-- Witness for C5: the 3-inlier resection oracle aborts the loop on the
6x6 board; the 4-inlier homography oracle merely leaves the homography map
empty while the view loop continues. -/
theorem poseFailure_fatal_vs_view_skip_witness :
    (processBoard ransacPoor false pinholeId view0 (cornersRow 36) innerInit
        (fullBoard 6 6 0) = none →
      processBoards ransacPoor false pinholeId view0 (cornersRow 36) innerInit
        (fullBoard 6 6 0 :: [fullBoard 6 6 0]) = none) ∧
    (30 ≤ countPoints (fullBoard 6 6 0) →
      (ransacPoor (boardFitData false pinholeId (cornersRow 36) innerInit
          (fullBoard 6 6 0)).2.2
        (boardFitData false pinholeId (cornersRow 36) innerInit
          (fullBoard 6 6 0)).2.1 pinholeId).2 < 10 →
      processBoard ransacPoor false pinholeId view0 (cornersRow 36) innerInit
        (fullBoard 6 6 0) = none) ∧
    (viewStep homPoor boardsOne 2 basicPh 1 (0, 0, []) (5, view0)).2.2
      = ((0, 0, []) : ℕ × ℕ × List (ℕ × Unit)).2.2 ∧
    collectHomographies homPoor boardsOne 2 basicPh 1 [(5, view0), (5, view0)] (0, 0, [])
      = collectHomographies homPoor boardsOne 2 basicPh 1 [(5, view0)]
          (viewStep homPoor boardsOne 2 basicPh 1 (0, 0, []) (5, view0)) :=
  poseFailure_fatal_vs_view_skip ransacPoor false pinholeId view0 (cornersRow 36)
    innerInit (fullBoard 6 6 0) [fullBoard 6 6 0] homPoor boardsOne 2 basicPh 1
    (0, 0, []) (5, view0) [(5, view0)] (by decide) (by decide) (by decide)

/-! ## Claim C3 -/

/-- C3 as stated is false on the code: starting from the initial state
(square size `0.25`, acceptance index 0), accepting the fully defined 6x6
board leaves the loop with square size `0.5`, so the second accepted board
is processed with size `2s`, not the same size `s` the claim asserts for
the first two accepted boards. -/
theorem appliedSquareSize_counterexample :
    (processBoard ransacAll false pinholeId view0 (cornersRow 36) innerInit
        (fullBoard 6 6 0)).map (fun st => st.localSquareSize) = some (1/2)
    ∧ ¬ ((1 : ℚ)/2 = 1/4) := by
  constructor
  · have h30 : ¬ countPoints (fullBoard 6 6 0) < 30 := by decide
    have h10 : ¬ (ransacAll (boardFitData false pinholeId (cornersRow 36) innerInit
        (fullBoard 6 6 0)).2.2
      (boardFitData false pinholeId (cornersRow 36) innerInit
        (fullBoard 6 6 0)).2.1 pinholeId).2 < 10 := by decide
    simp only [processBoard, if_neg h30, if_neg h10, Option.map_some]
    norm_num [nextSquareSize, innerInit]
  · norm_num

/-- C3 amended: the synthetic square size applied to the n-th accepted
board follows the sequence `s, 2s, 4s, 4s, 4s, …` with `s = 0.25`: the
size doubles after each of the first two accepted boards and stays
constant from the third accepted board on; an accepted board (at least 30
defined corners, resection at or above the inlier threshold) always leaves
the loop with square size `nextSquareSize` of the size it was processed
with. -/
theorem appliedSquareSize_doubles_after_first_two {Pose : Type _} (n : ℕ)
    (ransac : List Pix → List (ℚ × ℚ × ℚ) → PinholeData → Pose × ℕ)
    (usp : Bool) (pinhole : PinholeData) (view : View)
    (corners : List CheckerBoardCorner) (st st' : InnerState Pose)
    (b : CheckerBoard) :
    (appliedSquareSize n = if n = 0 then 1/4 else if n = 1 then 1/2 else 1) ∧
    (30 ≤ countPoints b →
      processBoard ransac usp pinhole view corners st b = some st' →
      st'.localSquareSize = nextSquareSize st.localSquareSize st.idxValid) := by
  constructor
  · induction n with
    | zero => rfl
    | succ m ih =>
      rw [show appliedSquareSize (m + 1) = nextSquareSize (appliedSquareSize m) m from rfl,
        ih]
      by_cases h0 : m = 0
      · subst h0; norm_num [nextSquareSize]
      · by_cases h1 : m = 1
        · subst h1; norm_num [nextSquareSize]
        · simp only [nextSquareSize, if_neg h0, if_neg h1,
            if_neg (by omega : ¬ m < 2), if_neg (by omega : ¬ m + 1 = 0),
            if_neg (by omega : ¬ m + 1 = 1)]
  · intro hge hacc
    simp only [processBoard, if_neg (by omega : ¬ countPoints b < 30)] at hacc
    by_cases hres : (ransac (boardFitData usp pinhole corners st b).2.2
        (boardFitData usp pinhole corners st b).2.1 pinhole).2 < 10
    · rw [if_pos hres] at hacc
      exact absurd hacc (by simp)
    · rw [if_neg hres] at hacc
      cases hacc
      rfl

/-- Witness for C3 (amended): the first three applied sizes are `0.25`,
`0.5`, `1`, and accepting the 6x6 board updates the size through
`nextSquareSize`. -/
theorem appliedSquareSize_doubles_after_first_two_witness :
    (appliedSquareSize 2 = if 2 = 0 then 1/4 else if 2 = 1 then 1/2 else 1) ∧
    (30 ≤ countPoints (fullBoard 6 6 0) →
      processBoard ransacAll false pinholeId view0 (cornersRow 36) innerInit
          (fullBoard 6 6 0)
        = some ((processBoard ransacAll false pinholeId view0 (cornersRow 36) innerInit
            (fullBoard 6 6 0)).getD innerInit) →
      ((processBoard ransacAll false pinholeId view0 (cornersRow 36) innerInit
          (fullBoard 6 6 0)).getD innerInit).localSquareSize
        = nextSquareSize innerInit.localSquareSize innerInit.idxValid) :=
  appliedSquareSize_doubles_after_first_two 2 ransacAll false pinholeId view0
    (cornersRow 36) innerInit
    ((processBoard ransacAll false pinholeId view0 (cornersRow 36) innerInit
        (fullBoard 6 6 0)).getD innerInit)
    (fullBoard 6 6 0)

/-! ## Claim C8 -/

/-- C8: the simple-pinhole aspect-correction step is idempotent on an
already-square-scaled intrinsic: when the vertical scale already equals
the (nonzero) horizontal scale, the step leaves the scale vector and every
observation's y-coordinate unchanged, so running the step twice produces
the same scale value as running it once. -/
theorem aspectStep_idempotent (ph : PinholeData) (lms : List (ℕ × Landmark))
    (hsq : ph.scale.2 = ph.scale.1) (hnz : ph.scale.1 ≠ 0) :
    (aspectStep ph lms).1.scale = ph.scale
    ∧ (aspectStep ph lms).2 = lms
    ∧ (aspectStep (aspectStep ph lms).1 (aspectStep ph lms).2).1.scale
      = (aspectStep ph lms).1.scale := by
  have hy : ∀ y : ℚ, (y - ph.principalPoint.2) / ph.scale.2 * ph.scale.1
      + ph.principalPoint.2 = y := by
    intro y
    rw [hsq]
    field_simp
  refine ⟨?_, ?_, rfl⟩
  · show ((ph.scale.1, ph.scale.1) : ℚ × ℚ) = ph.scale
    exact Prod.ext rfl hsq.symm
  · simp [aspectStep, hy]

/-- Witness for C8 at the unit-scale pinhole and a single landmark with a
single observation. -/
theorem aspectStep_idempotent_witness :
    (aspectStep pinholeId [(0, ⟨(0, 0, 0), [(0, ⟨(3, 7), 0, 1⟩)]⟩)]).1.scale
      = pinholeId.scale
    ∧ (aspectStep pinholeId [(0, ⟨(0, 0, 0), [(0, ⟨(3, 7), 0, 1⟩)]⟩)]).2
      = [(0, ⟨(0, 0, 0), [(0, ⟨(3, 7), 0, 1⟩)]⟩)]
    ∧ (aspectStep (aspectStep pinholeId [(0, ⟨(0, 0, 0), [(0, ⟨(3, 7), 0, 1⟩)]⟩)]).1
        (aspectStep pinholeId [(0, ⟨(0, 0, 0), [(0, ⟨(3, 7), 0, 1⟩)]⟩)]).2).1.scale
      = (aspectStep pinholeId [(0, ⟨(0, 0, 0), [(0, ⟨(3, 7), 0, 1⟩)]⟩)]).1.scale :=
  aspectStep_idempotent pinholeId [(0, ⟨(0, 0, 0), [(0, ⟨(3, 7), 0, 1⟩)]⟩)]
    rfl one_ne_zero

/-! ## Claim C2 -/

theorem fin_add_fin (a b : ℚ) : DReal.fin a + DReal.fin b = DReal.fin (a + b) := rfl

theorem fin_sub_fin (a b : ℚ) : DReal.fin a - DReal.fin b = DReal.fin (a - b) := rfl

theorem fin_mul_fin (a b : ℚ) : DReal.fin a * DReal.fin b = DReal.fin (a * b) := rfl

theorem neg_fin (a : ℚ) : -DReal.fin a = DReal.fin (-a) := rfl

theorem fin_div_fin (a b : ℚ) :
    DReal.fin a / DReal.fin b = if b = 0 then DReal.nan else DReal.fin (a / b) := rfl

theorem nan_mul (x : DReal) : DReal.nan * x = DReal.nan := by cases x <;> rfl

theorem mul_nan (x : DReal) : x * DReal.nan = DReal.nan := by cases x <;> rfl

theorem nan_sub (x : DReal) : DReal.nan - x = DReal.nan := by cases x <;> rfl

theorem sub_nan (x : DReal) : x - DReal.nan = DReal.nan := by cases x <;> rfl

theorem nan_div (x : DReal) : DReal.nan / x = DReal.nan := by cases x <;> rfl

theorem div_nan (x : DReal) : x / DReal.nan = DReal.nan := by cases x <;> rfl

theorem dsqrt_fin (q : ℚ) :
    dsqrt (DReal.fin q) = if q < 0 then DReal.nan else DReal.fin (ratSqrt q) := rfl

/-- C2 fails on the code (the spec states the intent): on the singular
vector `badSvdVec` the reconstructed `B` has
`B(0,0)B(1,1) − B(0,1)² = −3 ≤ 0`; the extraction nevertheless runs,
`β = sqrt(−1/3)` is NaN, the NaN propagates into `γ` and `u0`, and the
non-finite calibration matrix is written into the intrinsic by the
unconditional `setK` — `zhangSolveIntrinsic` (lines 514-530) has no
failure outcome at all, so nothing is detected or reported. -/
theorem zhang_degenerate_B_writes_nan :
    (badSvdVec.n0 * badSvdVec.n2 - badSvdVec.n1 * badSvdVec.n1 ≤ 0)
    ∧ (zhangSolveIntrinsic badSvdVec basicPh).K.m11 = DReal.nan
    ∧ (zhangSolveIntrinsic badSvdVec basicPh).K.m01 = DReal.nan
    ∧ hasNanEntry (zhangSolveIntrinsic badSvdVec basicPh).K = true := by
  have hK : (zhangSolveIntrinsic badSvdVec basicPh).K = zhangExtract (buildB badSvdVec) := rfl
  have hB : buildB badSvdVec = ⟨DReal.fin 1, DReal.fin 2, DReal.fin 1,
      DReal.fin 0, DReal.fin 0, DReal.fin 1⟩ := rfl
  have hA : zhangExtract (buildB badSvdVec)
      = ⟨DReal.fin (ratSqrt 1), DReal.nan, DReal.nan,
         DReal.fin 0, DReal.nan, DReal.fin 0,
         DReal.fin 0, DReal.fin 0, DReal.fin 1⟩ := by
    rw [hB]
    simp only [zhangExtract]
    norm_num [fin_add_fin, fin_sub_fin, fin_mul_fin, neg_fin, fin_div_fin, dsqrt_fin,
      nan_mul, mul_nan, nan_sub, sub_nan, nan_div, div_nan, identityD]
  refine ⟨by norm_num [badSvdVec], ?_, ?_, ?_⟩
  · rw [hK, hA]
  · rw [hK, hA]
  · rw [hK, hA]
    rfl

/-! ## Claim C1 -/

/-- C1 is right and the code is wrong: with a single detection set,
`process_basic` logs the at-least-2-views error but executes
`return EXIT_FAILURE;` in a function whose return type is `bool`; the
implicit `int → bool` conversion of `EXIT_FAILURE = 1` yields `true`, so
the failure is NOT reported to the caller as `false` — the caller's
`!process_basic(...)` check sees success. -/
theorem processBasic_too_few_views_returns_true :
    (processBasic homAll (fun _ => ⟨0, 0, 0, 0, 0, 0⟩) (fun _ => true) 1 [] []
        [(0, ⟨[], []⟩)]).1 = true
    ∧ cppIntAsBool EXIT_FAILURE = true := by
  constructor <;> rfl

/-! ## Claim C7 -/

/-- C7: when single-image nested-board calibration succeeds, the final
scene holds exactly one view — the original view identifier mapped to the
original view object, which the body read from the input scene's view
map — and exactly one pose: the original view identifier mapped to the
pose read under synthetic pose index 0 (the index the first accepted
board's pose was stored under) of the refined scene; all synthetic
per-board views and poses are discarded by the final replacement. -/
theorem processInnerGrids_single_view_single_pose {Pose : Type _} (dflt : Pose)
    (ransac : List Pix → List (ℚ × ℚ × ℚ) → PinholeData → Pose × ℕ)
    (ba : SfMData Pose → Option (SfMData Pose)) (sfmData : SfMData Pose)
    (boardsAllImages : List (ℕ × CheckerDetector)) (usp : Bool)
    (vid : ℕ) (v : View) (s : SfMData Pose)
    (hbody : innerGridsBody ransac ba sfmData boardsAllImages usp = some (vid, v, s)) :
    processInnerGrids dflt ransac ba sfmData boardsAllImages usp
      = some { s with views := [(vid, v)], poses := [(vid, agetD s.poses 0 dflt)] }
    ∧ alookup sfmData.views vid = some v
    ∧ ∀ out, processInnerGrids dflt ransac ba sfmData boardsAllImages usp = some out →
        out.views = [(vid, v)] ∧ out.poses = [(vid, agetD s.poses 0 dflt)] := by
  have h1 : processInnerGrids dflt ransac ba sfmData boardsAllImages usp
      = some (finalizeScene dflt vid v s) := by
    simp only [processInnerGrids, hbody]
    rfl
  refine ⟨h1, ?_, ?_⟩
  · unfold innerGridsBody at hbody
    repeat' (first | (split at hbody) | (simp only [] at hbody))
    all_goals first
      | (simp only [Option.some.injEq, Prod.mk.injEq] at hbody
         obtain ⟨ha, hb, hc⟩ := hbody
         subst ha
         subst hb
         assumption)
      | exact Option.noConfusion hbody
  · intro out hout
    rw [h1] at hout
    simp only [Option.some.injEq] at hout
    subst hout
    exact ⟨rfl, rfl⟩

unseal List.merge List.mergeSort in
/-- Witness for C7: the concrete single-view scene with one 6x6 board,
the all-inlier resection oracle and the identity bundle adjustment. -/
theorem processInnerGrids_single_view_single_pose_witness :
    processInnerGrids 0 ransacAll baId sceneOneView boardsOne false
      = some { sceneAfterBody with
          views := [(5, view0)]
          poses := [(5, agetD sceneAfterBody.poses 0 0)] }
    ∧ alookup sceneOneView.views 5 = some view0
    ∧ ∀ out, processInnerGrids 0 ransacAll baId sceneOneView boardsOne false = some out →
        out.views = [(5, view0)] ∧ out.poses = [(5, agetD sceneAfterBody.poses 0 0)] :=
  processInnerGrids_single_view_single_pose 0 ransacAll baId sceneOneView boardsOne
    false 5 view0 sceneAfterBody rfl

end AV
